import Mathlib

/-
  Verification development for the llm-router-system repository.

  The JavaScript core (duplicate-detection manager, reprocessing policy,
  intelligent router, batch processor) is shallowly embedded over `List Char`
  strings.  JavaScript strings are modelled as lists of characters (ASCII is
  all the source manipulates), JS `Map`s as association lists, absent (duck
  typed) record fields as `Option`, JS numbers as `ℚ` (every comparison the
  claims touch is exact in both semantics), and wall-clock timestamps as
  explicit `now`/`today` parameters.  Cryptographic digests (sha256 / md5) are
  modelled as injective tagged strings: equality of digests corresponds to
  equality of digested data, and a digest is never the empty string, exactly
  the properties of the real hashes (modulo collision resistance).
-/

namespace LLMRouter

/-- JavaScript strings, modelled as lists of characters. -/
abbrev Str := List Char

/-! ### Character classes used by the source's regular expressions -/

/-- JS `\s` (the whitespace characters the source's inputs can contain). -/
def isWsChar (c : Char) : Bool :=
  c == ' ' || c == '\t' || c == '\n' || c == '\r' || c == Char.ofNat 11 || c == Char.ofNat 12

/-- JS `\w` = `[A-Za-z0-9_]`, for `\b` word boundaries. -/
def isWordChar (c : Char) : Bool :=
  (('a' ≤ c && c ≤ 'z') || ('A' ≤ c && c ≤ 'Z') || ('0' ≤ c && c ≤ '9') || c == '_')

/-- ASCII lowercasing, JS `String.prototype.toLowerCase` on the source's data. -/
def lowerStr (s : Str) : Str := s.map Char.toLower

/-! ### `replace(/\s+/g, ' ')` — collapse whitespace runs -/

/-- One pass of whitespace collapsing; the `Bool` records whether the
previous character was whitespace (in which case the current run has already
emitted its single space). -/
def collapseAux : Bool → Str → Str
  | _, [] => []
  | prevWs, c :: cs =>
    if isWsChar c then
      if prevWs then collapseAux true cs
      else ' ' :: collapseAux true cs
    else c :: collapseAux false cs

/-- `s.replace(/\s+/g, ' ')`: every maximal whitespace run becomes one space. -/
def collapseWs (s : Str) : Str := collapseAux false s

/-! ### `trim()` -/

/-- `s.trim()`: drop leading and trailing whitespace. -/
def trimStr (s : Str) : Str :=
  ((s.dropWhile isWsChar).reverse.dropWhile isWsChar).reverse

/-! ### String prefix / substring / comparison -/

/-- Boolean "needle is a prefix of haystack". -/
def strStarts : Str → Str → Bool
  | [], _ => true
  | _ :: _, [] => false
  | a :: as, b :: bs => a == b && strStarts as bs

/-- JS `hay.includes(needle)`. -/
def containsStr (hay needle : Str) : Bool :=
  match hay with
  | [] => needle == []
  | _ :: t => strStarts needle hay || containsStr t needle

/-- JS `<` on strings: lexicographic comparison by character code. -/
def jsLtStr : Str → Str → Bool
  | [], [] => false
  | [], _ :: _ => true
  | _ :: _, [] => false
  | a :: as, b :: bs =>
    if a.toNat < b.toNat then true
    else if b.toNat < a.toNat then false
    else jsLtStr as bs

/-! ### `replace(/\d+ hours? ago|\d+ minutes? ago/g, '')` — strip relative times

The scanner mirrors the JS regex engine: at each position it first tries
`\d+ hours? ago` (greedy `s?`), then `\d+ minutes? ago`; on a match it skips
the matched text, otherwise it emits one character and advances. -/

/-- The four literal tails a relative-time phrase can have after its digits. -/
def hourSLit : Str := [' ', 'h', 'o', 'u', 'r', 's', ' ', 'a', 'g', 'o']

def hourLit : Str := [' ', 'h', 'o', 'u', 'r', ' ', 'a', 'g', 'o']

def minSLit : Str := [' ', 'm', 'i', 'n', 'u', 't', 'e', 's', ' ', 'a', 'g', 'o']

def minLit : Str := [' ', 'm', 'i', 'n', 'u', 't', 'e', ' ', 'a', 'g', 'o']

/-- After the digit run, the length of the matched unit tail (in the JS
backtracking order: `hours`, `hour`, `minutes`, `minute`). -/
def unitTailLen (rest : Str) : Option Nat :=
  if strStarts hourSLit rest then some 10
  else if strStarts hourLit rest then some 9
  else if strStarts minSLit rest then some 12
  else if strStarts minLit rest then some 11
  else none

/-- Length of the regex match `\d+ hours? ago|\d+ minutes? ago` anchored at
the head of `s`, if any. -/
def matchTimeLen (s : Str) : Option Nat :=
  if s.takeWhile (·.isDigit) = [] then none
  else
    match unitTailLen (s.dropWhile (·.isDigit)) with
    | some m => some ((s.takeWhile (·.isDigit)).length + m)
    | none => none

/-- Fuel-indexed scanner for the global time-phrase replacement (the fuel is
the string length, so the recursion is structural and kernel-evaluable; a
match is at least one character long, hence `cs.drop (L - 1)`). -/
def removeTimesAux : Nat → Str → Str
  | _, [] => []
  | 0, s => s
  | fuel + 1, c :: cs =>
    match matchTimeLen (c :: cs) with
    | some L => removeTimesAux fuel (cs.drop (L - 1))
    | none => c :: removeTimesAux fuel cs

/-- `s.replace(/\d+ hours? ago|\d+ minutes? ago/g, '')`. -/
def removeTimes (s : Str) : Str := removeTimesAux s.length s

/-! ### Digests

`crypto.createHash('sha256'|'md5')` digests are modelled as injective tagged
strings: two digests are equal exactly when the digested data is (collision
resistance), and a digest is never empty (a real hex digest has fixed
positive length). -/

def sha256hex (s : Str) : Str := ('s' :: 'h' :: 'a' :: '2' :: '5' :: '6' :: ':' :: []) ++ s

def md5hex (s : Str) : Str := ('m' :: 'd' :: '5' :: ':' :: []) ++ s

/-! ### DuplicateDetectionManager — fingerprint generation (part_000, 17-257) -/

/-- A raw content item as consumed by `generateContentFingerprint`; absent
JS fields are the empty string / empty list (both falsy, and every use in
the source treats them identically to `undefined`). -/
structure ContentItem where
  url : Str
  title : Str
  content : Str
  tags : List Str
deriving DecidableEq

/-- Leftmost match of `/\/posts\/(\d+)/`: returns the captured digit run. -/
def findPostsId : Str → Option Str
  | [] => none
  | c :: cs =>
    let lit : Str := ['/', 'p', 'o', 's', 't', 's', '/']
    if strStarts lit (c :: cs) then
      let ds := ((c :: cs).drop 7).takeWhile (·.isDigit)
      if ds = [] then findPostsId cs else some ds
    else findPostsId cs

/-- Leftmost match of `/patreon\.com\/([^\/]+)\/posts/`: returns the captured
creator segment. -/
def findPatreonCreator : Str → Option Str
  | [] => none
  | c :: cs =>
    let lit : Str := ['p', 'a', 't', 'r', 'e', 'o', 'n', '.', 'c', 'o', 'm', '/']
    if strStarts lit (c :: cs) then
      let after := (c :: cs).drop 12
      let seg := after.takeWhile (· ≠ '/')
      let lit2 : Str := ['/', 'p', 'o', 's', 't', 's']
      if seg ≠ [] ∧ strStarts lit2 (after.drop seg.length) then some seg
      else findPatreonCreator cs
    else findPatreonCreator cs

/-- `extractPatreonPostId(url)` (part_000, 166-178): post path, filtered
listing, or an 8-character md5 fallback; `null` only for a falsy url. -/
def extractPatreonPostId (url : Str) : Option Str :=
  if url = [] then none
  else
    match findPostsId url with
    | some ds => some ds
    | none =>
      match findPatreonCreator url with
      | some creator => some (creator ++ ("_filtered").toList)
      | none => some ((md5hex url).take 8)

/-- Leftmost occurrence of literal `lit` followed by a nonempty capture of
characters satisfying `ok` (the capture classes of `extractVideoId`). -/
def findAfterLit (lit : Str) (ok : Char → Bool) : Str → Option Str
  | [] => none
  | c :: cs =>
    if strStarts lit (c :: cs) then
      let cap := ((c :: cs).drop lit.length).takeWhile ok
      if cap = [] then findAfterLit lit ok cs else some cap
    else findAfterLit lit ok cs

/-- `extractVideoId(content)` (part_000, 180-196).  Note: the source's regex
literals say `[^\\s]` / `[^&\\s]`, i.e. the classes exclude a literal
backslash and the letter `s` (not whitespace); embedded faithfully. -/
def extractVideoId (content : Str) : Option Str :=
  if content = [] then none
  else
    match findAfterLit (("youtube.com/live/").toList) (fun c => !(c == '\\' || c == 's')) content with
    | some v => some v
    | none =>
      match findAfterLit (("youtube.com/watch?v=").toList)
          (fun c => !(c == '&' || c == '\\' || c == 's')) content with
      | some v => some v
      | none => findAfterLit (("youtu.be/").toList) (fun c => !(c == '\\' || c == 's')) content

/-- Insertion sort by JS default string order (stable, as `Array.sort`). -/
def insertSorted (x : Str) : List Str → List Str
  | [] => [x]
  | y :: ys => if jsLtStr y x then y :: insertSorted x ys else x :: y :: ys

def sortStrs : List Str → List Str
  | [] => []
  | x :: xs => insertSorted x (sortStrs xs)

/-- `extractAndNormalizeTags(tags)` (part_000, 198-201). -/
def extractAndNormalizeTags (tags : List Str) : List Str :=
  sortStrs (tags.map (fun tag => trimStr (lowerStr tag)))

/-- `normalizeUrl(url)` (part_000, 203-209). -/
def normalizeUrl (url : Str) : Str :=
  if url = [] then []
  else lowerStr (url.takeWhile (· ≠ '?'))

/-- The normalization `createContentHash` applies before digesting:
collapse whitespace, strip relative-time phrases, trim, lowercase. -/
def normalizeContentForHash (content : Str) : Str :=
  lowerStr (trimStr (removeTimes (collapseWs content)))

/-- `createContentHash(content)` (part_000, 211-222); note the falsy guard
returns the empty string without hashing. -/
def createContentHash (content : Str) : Str :=
  if content = [] then []
  else sha256hex (normalizeContentForHash content)

/-- `normalizeText(text)` (part_000, 224-231). -/
def normalizeText (text : Str) : Str :=
  if text = [] then []
  else lowerStr (trimStr (collapseWs text))

structure FingerprintData where
  post_id : Option Str
  video_id : Option Str
  title : Str
  content_hash : Str
  tags : List Str
  normalized_url : Str
deriving DecidableEq

/-- JS template-literal rendering of a possibly-null string. -/
def optToStr : Option Str → Str
  | none => ('n' :: 'u' :: 'l' :: 'l' :: [])
  | some s => s

/-- `joinedTags = data.tags.join(',')`. -/
def joinComma : List Str → Str
  | [] => []
  | [t] => t
  | t :: ts => t ++ (',' :: joinComma ts)

/-- `createSecondaryFingerprint(data)` (part_000, 233-236); `data.video_id || ''`. -/
def createSecondaryFingerprint (data : FingerprintData) : Str :=
  md5hex ((match data.video_id with | none => [] | some v => v) ++
    ('|' :: joinComma data.tags) ++ ('|' :: data.normalized_url))

structure Fingerprint where
  primary_fingerprint : Str
  secondary_fingerprint : Str
  metadata : FingerprintData
deriving DecidableEq

/-- `generateContentFingerprint(content)` (part_000, 18-43). -/
def generateContentFingerprint (content : ContentItem) : Fingerprint :=
  let fingerprintData : FingerprintData :=
    { post_id := extractPatreonPostId content.url
      video_id := extractVideoId content.content
      title := normalizeText content.title
      content_hash := createContentHash content.content
      tags := extractAndNormalizeTags content.tags
      normalized_url := normalizeUrl content.url }
  let primaryData :=
    optToStr fingerprintData.post_id ++ ('|' :: fingerprintData.title) ++
      ('|' :: fingerprintData.content_hash)
  { primary_fingerprint := sha256hex primaryData
    secondary_fingerprint := createSecondaryFingerprint fingerprintData
    metadata := fingerprintData }

/-! ### Processing records and the reprocessing policy (part_000, 86-257)

JS records are duck typed: `markAsProcessing`/`markAsCompleted` write a field
named `processing_status`, while `shouldReprocess` and `checkIfProcessed`
read a field named `status`.  The embedding keeps both fields, `Option`-valued
(`none` = the field is absent / `undefined`). -/

structure ProcessedInfo where
  content_hash : Str := []
  content_id : Option Str := none
  status : Option Str := none
  processing_status : Option Str := none
  started_processing : Option Str := none
  last_processed : Option Str := none
  processing_version : Option Str := none
  quality_score : Option ℚ := none
  error_count : Option Nat := none
  force_reprocess_flag : Bool := false
  result : Option Str := none
  reprocess_reason : Option Str := none
  content_metadata : Option FingerprintData := none
  original_content : Option ContentItem := none
deriving DecidableEq

/-- `getCurrentProcessingVersion()` (part_000, 238-241). -/
def getCurrentProcessingVersion : Str := ("2.0.0").toList

/-- JS `undefined < "2.0.0"` is `false` (NaN comparison); a present string
compares lexically by character code. -/
def jsLtOptStr (o : Option Str) (b : Str) : Bool :=
  match o with
  | none => false
  | some a => jsLtStr a b

/-- `hasNewerProcessingVersion(oldVersion)` (part_000, 243-245): a plain JS
`<` on version STRINGS. -/
def hasNewerProcessingVersion (oldVersion : Option Str) : Bool :=
  jsLtOptStr oldVersion getCurrentProcessingVersion

/-- `processedInfo.quality_score < 0.7` with JS `undefined`-semantics. -/
def jsLtOptQ (o : Option ℚ) (x : ℚ) : Bool :=
  match o with
  | none => false
  | some v => decide (v < x)

/-- `processedInfo.error_count < 3` with JS `undefined`-semantics. -/
def jsLtOptNat (o : Option Nat) (x : Nat) : Bool :=
  match o with
  | none => false
  | some n => decide (n < x)

/-- `hasPriorityTagsNeedingReprocessing(processedInfo)` (part_000, 247-257):
substring containment of a priority tag in any metadata tag, and a lexical
version comparison against `'2.0.0'`. -/
def hasPriorityTagsNeedingReprocessing (info : ProcessedInfo) : Bool :=
  let priorityTags : List Str :=
    [("bitcoin").toList, ("tesla").toList, ("solana").toList, ("sbr").toList]
  let contentTags : List Str :=
    match info.content_metadata with
    | some md => md.tags
    | none => []
  priorityTags.any (fun tag => contentTags.any (fun contentTag => containsStr contentTag tag)) &&
    jsLtOptStr info.processing_version (("2.0.0").toList)

structure ReprocessDecision where
  should_reprocess : Bool
  reason : Str
deriving DecidableEq

/-- `shouldReprocess(processedInfo)` (part_000, 86-108): an ordered decision
list, first matching rule wins. -/
def shouldReprocess (info : ProcessedInfo) : ReprocessDecision :=
  if info.force_reprocess_flag then
    ⟨true, ("force_reprocess_requested").toList⟩
  else if info.status == some (("failed").toList) && jsLtOptNat info.error_count 3 then
    ⟨true, ("retry_failed_processing").toList⟩
  else if jsLtOptQ info.quality_score (mkRat 7 10) && hasNewerProcessingVersion info.processing_version then
    ⟨true, ("quality_improvement_available").toList⟩
  else if hasPriorityTagsNeedingReprocessing info then
    ⟨true, ("priority_tags_detected").toList⟩
  else
    ⟨false, ("content_acceptable").toList⟩

/-! ### The duplicate/state store (part_000, 46-163)

`this.processedContent` is a JS `Map`, modelled as an association list;
`Map.set` replaces in place or appends. -/

abbrev Store := List (Str × ProcessedInfo)

def storeGet : Store → Str → Option ProcessedInfo
  | [], _ => none
  | (k, v) :: rest, key => if k = key then some v else storeGet rest key

def storeSet : Store → Str → ProcessedInfo → Store
  | [], key, v => [(key, v)]
  | (k, v') :: rest, key, v =>
    if k = key then (key, v) :: rest else (k, v') :: storeSet rest key v

/-- The record written by `markAsProcessing` (part_000, 111-126); note the
field is `processing_status`, and `content_id` is `post_id || video_id`. -/
def markAsProcessingRecord (fp : Fingerprint) (content : ContentItem) (now : Str) : ProcessedInfo :=
  { content_hash := fp.primary_fingerprint
    content_id :=
      match fp.metadata.post_id with
      | some p => if p = [] then fp.metadata.video_id else some p
      | none => fp.metadata.video_id
    processing_status := some (("processing").toList)
    started_processing := some now
    processing_version := some getCurrentProcessingVersion
    content_metadata := some fp.metadata
    original_content := some content }

def markAsProcessing (store : Store) (fp : Fingerprint) (content : ContentItem) (now : Str) : Store :=
  storeSet store fp.primary_fingerprint (markAsProcessingRecord fp content now)

/-- The record written by `markAsCompleted` (part_000, 129-145). -/
def markAsCompletedRecord (fp : Fingerprint) (result : Str) (qualityScore : ℚ) (now : Str) : ProcessedInfo :=
  { content_hash := fp.primary_fingerprint
    processing_status := some (("completed").toList)
    last_processed := some now
    quality_score := some qualityScore
    processing_version := some getCurrentProcessingVersion
    result := some result
    force_reprocess_flag := false
    error_count := some 0 }

def markAsCompleted (store : Store) (fp : Fingerprint) (result : Str) (qualityScore : ℚ) (now : Str) : Store :=
  storeSet store fp.primary_fingerprint (markAsCompletedRecord fp result qualityScore now)

/-- Modelled from the spec: `findContentByIdentifier` is an unimplemented
database stub in the source (it always returns the empty list); the spec
(§4.2) says `forceReprocess` "resolves identifier (URL, post id, or raw hash)
to zero or more fingerprints via an external lookup".  The external lookup is
therefore passed as an explicit parameter. -/
def forceStep (reason : Str) (st : Store) (hash : Str) : Store :=
  match storeGet st hash with
  | some info =>
    storeSet st hash
      { info with
        force_reprocess_flag := true
        processing_status := some (("needs_reprocessing").toList)
        reprocess_reason := some reason }
  | none => st

def forceReprocessWith (lookup : Str → List Str) (store : Store) (identifier : Str) (reason : Str) : Store :=
  (lookup identifier).foldl (forceStep reason) store

/-- The duck-typed result union of `checkIfProcessed` (part_000, 46-83). -/
structure CheckResult where
  is_duplicate : Bool
  processing_status : Option Str := none
  last_processed : Option Str := none
  quality_score : Option ℚ := none
  should_reprocess : Option ReprocessDecision := none
  cached_result : Option Str := none
  fingerprint : Option Fingerprint := none
  should_process : Bool := false
deriving DecidableEq

/-- `checkDatabase(fingerprint)` (part_000, 265-268): a stub returning
`{ found: false }` (no `data` field). -/
def checkDatabase (_fp : Fingerprint) : Bool × Option ProcessedInfo := (false, none)

/-- `checkIfProcessed(content)` (part_000, 46-83).  A cache hit reports
`processing_status: cachedInfo.status` — the `status` field, not the
`processing_status` field the write path populates.  The database branch also
returns the (possibly updated) store, faithful to the write-through caching;
with the stub `checkDatabase` it is never taken. -/
def checkIfProcessed (store : Store) (content : ContentItem) : CheckResult × Store :=
  match storeGet store (generateContentFingerprint content).primary_fingerprint with
  | some cachedInfo =>
    ({ is_duplicate := true
       processing_status := cachedInfo.status
       last_processed := cachedInfo.last_processed
       quality_score := cachedInfo.quality_score
       should_reprocess := some (shouldReprocess cachedInfo)
       cached_result := cachedInfo.result }, store)
  | none =>
    match checkDatabase (generateContentFingerprint content) with
    | (true, some data) =>
      ({ is_duplicate := true
         processing_status := data.status
         last_processed := data.last_processed
         quality_score := data.quality_score
         should_reprocess := some (shouldReprocess data)
         cached_result := data.result },
        storeSet store (generateContentFingerprint content).primary_fingerprint data)
    | _ =>
      ({ is_duplicate := false
         fingerprint := some (generateContentFingerprint content)
         should_process := true }, store)

/-! ### Semantic version order (for claim C3)

Modelled from the spec: §9 calls for "a structured semantic-version
comparison" and §4.3 speaks of "a newer `processing_version`" meaning
semantically newer; split on dots, compare numeric components
lexicographically. -/

def splitDotsAux : Str → Str → List Str
  | acc, [] => [acc.reverse]
  | acc, c :: cs => if c = '.' then acc.reverse :: splitDotsAux [] cs else splitDotsAux (c :: acc) cs

def splitDots (s : Str) : List Str := splitDotsAux [] s

def digitsToNat (s : Str) : Nat :=
  s.foldl (fun acc c => acc * 10 + (c.toNat - ('0').toNat)) 0

def natListLt : List Nat → List Nat → Bool
  | [], [] => false
  | [], _ :: _ => true
  | _ :: _, [] => false
  | a :: as, b :: bs => if a < b then true else if b < a then false else natListLt as bs

/-- Modelled from the spec: `a` is a semantically earlier version than `b`. -/
def semverLt (a b : Str) : Bool :=
  natListLt ((splitDots a).map digitsToNat) ((splitDots b).map digitsToNat)

/-! ### IntelligentRouter (src/utils/intelligent-router.js, 57-301)

The file defines `IntelligentRouter` twice; the second definition (line 57)
shadows the first at `module.exports` and is the one embedded here. -/

/-- Is the head of `s` a word character (the right-hand `\b` test)? -/
def wordCharAfter : Str → Bool
  | [] => false
  | c :: _ => isWordChar c

/-- Case-insensitive match of one of `words` at the head of `s`, with the
trailing `\b` boundary; alternatives are tried in regex order. -/
def matchWordAt (words : List Str) (s : Str) : Option Nat :=
  words.findSome? fun w =>
    if lowerStr (s.take w.length) = lowerStr w && !wordCharAfter (s.drop w.length) then
      some w.length
    else none

/-- Global match count for `/\b(w1|w2|...)\b/gi`; the `Bool` records whether
the previous character was a word character (the left-hand `\b` test), and
the fuel (the string length) makes the scan structural. -/
def countAux (words : List Str) : Nat → Bool → Str → Nat
  | _, _, [] => 0
  | 0, _, _ => 0
  | fuel + 1, prevWord, c :: cs =>
    if prevWord then countAux words fuel (isWordChar c) cs
    else
      match matchWordAt words (c :: cs) with
      | some L => 1 + countAux words fuel true (cs.drop (L - 1))
      | none => countAux words fuel (isWordChar c) cs

/-- `content.match(/\b(...)\b/gi)` match count (`null` ↦ 0). -/
def countWordMatches (words : List Str) (s : Str) : Nat :=
  countAux words s.length false s

structure ComplexityAnalysis where
  length : Nat
  complexity_score : ℚ
  factors : List Str
deriving DecidableEq

/-- The three `complexityIndicators` keyword families (lines 112-116). -/
def complexityFamily0 : List Str :=
  [("analysis").toList, ("strategy").toList, ("complex").toList, ("detailed").toList,
    ("comprehensive").toList]

def complexityFamily1 : List Str :=
  [("arbitrage").toList, ("trading").toList, ("financial").toList, ("investment").toList,
    ("market").toList]

def complexityFamily2 : List Str :=
  [("data").toList, ("statistics").toList, ("calculations").toList, ("formulas").toList]

/-- The technical-content pattern (line 127). -/
def technicalWords : List Str :=
  [("code").toList, ("programming").toList, ("technical").toList, ("algorithm").toList,
    ("API").toList]

/-- One `complexityIndicators.forEach` step (lines 118-124): a family with
`matches.length > 0` adds `0.1 + matches.length * 0.05` and pushes its
factor name. -/
def famStep (content : Str) (factorName : Str) (family : List Str)
    (acc : ℚ × List Str) : ℚ × List Str :=
  if 0 < countWordMatches family content then
    (acc.1 + (mkRat 1 10 + (countWordMatches family content : ℚ) * mkRat 1 20),
      acc.2 ++ [factorName])
  else acc

/-- Length-based complexity (lines 106-109): `content.length > 5000` adds 0.3. -/
def lengthAccum (content : Str) : ℚ × List Str :=
  if 5000 < content.length then (mkRat 3 10, [("long_content").toList]) else (0, [])

/-- The `complexityIndicators.forEach` loop (lines 118-124) over the three
families, started from the length-based accumulator. -/
def familiesAccum (content : Str) : ℚ × List Str :=
  famStep content (("complexity_pattern_2").toList) complexityFamily2
    (famStep content (("complexity_pattern_1").toList) complexityFamily1
      (famStep content (("complexity_pattern_0").toList) complexityFamily0
        (lengthAccum content)))

/-- Technical-content detection (lines 127-130): a further 0.2. -/
def complexityAccum (content : Str) : ℚ × List Str :=
  if 0 < countWordMatches technicalWords content then
    ((familiesAccum content).1 + mkRat 2 10,
      (familiesAccum content).2 ++ [("technical_content").toList])
  else familiesAccum content

/-- `analyzeComplexity(content, contentType)` (lines 98-136); the final score
is `Math.min(score, 1.0)`. -/
def analyzeComplexity (content : Str) : ComplexityAnalysis :=
  { length := content.length
    complexity_score := min (complexityAccum content).1 1
    factors := (complexityAccum content).2 }

structure Classification where
  content_type : Str
  categories : List Str
  keywords : List Str
  priority : Str
  requires_cloud : Bool
  requires_specialized_model : Bool
deriving DecidableEq

/-- The `tradingKeywords` vocabulary (line 148). -/
def tradingKeywords : List Str :=
  [("arbitrage").toList, ("trading").toList, ("stock").toList, ("options").toList,
    ("financial").toList, ("investment").toList, ("profit").toList, ("loss").toList,
    ("market").toList, ("tesla").toList]

/-- The technical pattern of `classifyContent` (line 161) — a different word
set and order from `analyzeComplexity`'s. -/
def classifierTechnicalWords : List Str :=
  [("code").toList, ("API").toList, ("technical").toList, ("programming").toList,
    ("algorithm").toList]

/-- The news pattern (line 166). -/
def newsWords : List Str :=
  [("news").toList, ("update").toList, ("announcement").toList, ("report").toList]

/-- `classifyContent(content, contentType)` (lines 138-177).  The JS builds
the record by sequential mutation; the embedding computes each field with
the same conditions, pushing categories in the same order. -/
def classifyContent (content contentType : Str) : Classification :=
  let foundTradingKeywords :=
    tradingKeywords.filter fun keyword => containsStr (lowerStr content) keyword
  let hasTrading := foundTradingKeywords ≠ []
  let hasTechnical := 0 < countWordMatches classifierTechnicalWords content
  let hasNews := 0 < countWordMatches newsWords content
  let multimedia := contentType = ("image").toList ∨ contentType = ("video").toList
  { content_type := contentType
    categories :=
      (if hasTrading then [("trading_content").toList] else []) ++
      (if hasTechnical then [("technical_content").toList] else []) ++
      (if hasNews then [("informational_content").toList] else []) ++
      (if multimedia then [("multimedia_content").toList] else [])
    keywords := foundTradingKeywords
    priority := if hasTrading then ("high").toList else ("medium").toList
    requires_cloud := if hasTrading then decide (2 < foundTradingKeywords.length) else false
    requires_specialized_model := multimedia }

/-- Routing decisions; `original_decision` nests the pre-override decision,
so the type is inductive rather than a flat structure. -/
inductive RoutingDecision where
  | mk (route_to : Str) (model : Str) (reasoning : Str) (fallback_to_cloud : Bool)
      (original_decision : Option RoutingDecision)

def RoutingDecision.route_to : RoutingDecision → Str
  | .mk r _ _ _ _ => r

def RoutingDecision.model : RoutingDecision → Str
  | .mk _ m _ _ _ => m

def RoutingDecision.reasoning : RoutingDecision → Str
  | .mk _ _ g _ _ => g

def RoutingDecision.fallback_to_cloud : RoutingDecision → Bool
  | .mk _ _ _ f _ => f

/-- Runtime options consumed by the router. -/
structure RouterOptions where
  cost_mode : Option Str := none
  priority : Option Str := none
  batch_size : Option Nat := none
deriving DecidableEq

/-- `applyRoutingRules(content, complexity, classification, options)`
(lines 179-234): an ordered first-match rule list. -/
def applyRoutingRules (content : Str) (complexity : ComplexityAnalysis)
    (classification : Classification) (_options : RouterOptions) : RoutingDecision :=
  if classification.content_type = ("image").toList then
    .mk (("local").toList) (("vision_analysis").toList)
      (("Image content routed to local vision model").toList) false none
  else if classification.categories.contains (("trading_content").toList) &&
      decide (mkRat 7 10 < complexity.complexity_score) then
    .mk (("cloud").toList) (("abacus_gpt4o").toList)
      (("Complex trading analysis requires advanced cloud model").toList) false none
  else if content.length < 500 ∧ complexity.complexity_score < mkRat 3 10 then
    .mk (("local").toList) (("classification").toList)
      (("Short, simple content processed locally for speed").toList) false none
  else if 2000 ≤ content.length ∧ complexity.complexity_score < mkRat 8 10 then
    .mk (("local").toList) (("complex_reasoning").toList)
      (("Long content processed with local advanced model").toList) true none
  else if mkRat 8 10 ≤ complexity.complexity_score then
    .mk (("cloud").toList) (("abacus_claude").toList)
      (("High complexity requires cloud processing").toList) false none
  else
    .mk (("local").toList) (("general_processing").toList)
      (("Default routing to local general model").toList) false none

/-- Per-`(routeType, model)` running counters (lines 287-298). -/
structure PerfStats where
  count : Nat
  total_latency : ℚ
  total_cost : ℚ
  avg_latency : ℚ
  avg_cost : ℚ
deriving DecidableEq

/-- The mutable state of an `IntelligentRouter` instance: the two maps the
constructor creates (lines 61-62). -/
structure RouterState where
  performanceHistory : List (Str × PerfStats)
  costTracking : List (Str × ℚ)
deriving DecidableEq

/-- The constructor's state: both maps empty. -/
def initRouterState : RouterState := ⟨[], []⟩

def assocQ : List (Str × ℚ) → Str → Option ℚ
  | [], _ => none
  | (k, v) :: rest, key => if k = key then some v else assocQ rest key

def assocPerf : List (Str × PerfStats) → Str → Option PerfStats
  | [], _ => none
  | (k, v) :: rest, key => if k = key then some v else assocPerf rest key

def assocPerfSet : List (Str × PerfStats) → Str → PerfStats → List (Str × PerfStats)
  | [], key, v => [(key, v)]
  | (k, v') :: rest, key, v =>
    if k = key then (key, v) :: rest else (k, v') :: assocPerfSet rest key v

/-- `getDailyCost()` (lines 276-280): `costTracking.get(today) || 0`. -/
def getDailyCost (st : RouterState) (today : Str) : ℚ :=
  match assocQ st.costTracking today with
  | some c => c
  | none => 0

/-- `getModelPerformance(routeType, model)` (lines 282-285). -/
def getModelPerformance (st : RouterState) (routeType model : Str) : Option PerfStats :=
  assocPerf st.performanceHistory (routeType ++ (':' :: model))

/-- `updatePerformanceHistory(routeType, model, metrics)` (lines 287-298);
`metrics.latency || 0` and `metrics.cost || 0`. -/
def updatePerformanceHistoryState (st : RouterState) (routeType model : Str)
    (latency cost : Option ℚ) : RouterState :=
  let key := routeType ++ (':' :: model)
  let existing :=
    match assocPerf st.performanceHistory key with
    | some e => e
    | none => { count := 0, total_latency := 0, total_cost := 0, avg_latency := 0, avg_cost := 0 }
  let count := existing.count + 1
  let total_latency := existing.total_latency + (match latency with | some l => l | none => 0)
  let total_cost := existing.total_cost + (match cost with | some c => c | none => 0)
  { st with
    performanceHistory :=
      assocPerfSet st.performanceHistory key
        { count := count
          total_latency := total_latency
          total_cost := total_cost
          avg_latency := total_latency / (count : ℚ)
          avg_cost := total_cost / (count : ℚ) } }

/-- The states an `IntelligentRouter` instance can actually be in: the
constructor's state closed under the only state-mutating method,
`updatePerformanceHistory` (every other method only reads the two maps). -/
inductive Reachable : RouterState → Prop
  | init : Reachable initRouterState
  | update (st : RouterState) (routeType model : Str) (latency cost : Option ℚ) :
      Reachable st → Reachable (updatePerformanceHistoryState st routeType model latency cost)

/-- The cost-guard half of `optimizeRouting` (lines 238-250); `highCost` is
the configured `monitoring.alerts.high_cost` ceiling. -/
def costGuard (st : RouterState) (highCost : ℚ) (today : Str) (options : RouterOptions)
    (d : RoutingDecision) : RoutingDecision :=
  if options.cost_mode = some (("optimize").toList) then
    if highCost < getDailyCost st today then
      if d.route_to = ("cloud").toList then
        .mk (("local").toList) (("complex_reasoning").toList)
          (("Switched to local due to cost limits").toList) false (some d)
      else d
    else d
  else d

/-- The latency-guard half of `optimizeRouting` (lines 253-263); note the
source always queries the `'local'` route's stats for the current model. -/
def latencyGuard (st : RouterState) (options : RouterOptions) (d : RoutingDecision) : RoutingDecision :=
  if options.priority = some (("high").toList) then
    match getModelPerformance st (("local").toList) d.model with
    | some perf =>
      if (30000 : ℚ) < perf.avg_latency then
        .mk (("cloud").toList) (("abacus_claude_haiku").toList)
          (("Switched to cloud for better performance").toList) false (some d)
      else d
    | none => d
  else d

/-- `optimizeRouting(routingDecision, options)` (lines 236-266): the cost
guard, then the latency guard. -/
def optimizeRouting (st : RouterState) (highCost : ℚ) (today : Str)
    (d : RoutingDecision) (options : RouterOptions) : RoutingDecision :=
  latencyGuard st options (costGuard st highCost today options d)

/-- `getFallbackRoute(contentType)` (lines 268-274). -/
def getFallbackRoute : RoutingDecision :=
  .mk (("local").toList) (("general_processing").toList)
    (("Fallback route due to routing error").toList) false none

/-! ### `processBatch` (part_002, 1572-1609) -/

structure BatchItem where
  id : Str
  content : Str
  content_type : Str
deriving DecidableEq

structure BatchResult where
  id : Str
  routing_decision : Option RoutingDecision := none
  result : Option Str := none
  status : Str
  error : Option Str := none

/-- `options.batch_size || 10` (`undefined` and `0` are both falsy). -/
def jsBatchSize : Option Nat → Nat
  | none => 10
  | some n => if n = 0 then 10 else n

/-- Consecutive `items.slice(i, i + batchSize)` groups; fuel-structural
(`bs ≥ 1` for every reachable call, and each step consumes the head). -/
def chunkAux (bs : Nat) : Nat → List α → List (List α)
  | _, [] => []
  | 0, _ :: _ => []
  | fuel + 1, x :: xs => (x :: xs.take (bs - 1)) :: chunkAux bs fuel (xs.drop (bs - 1))

def chunkList (bs : Nat) (l : List α) : List (List α) := chunkAux bs l.length l

/-- One batch item (lines 1579-1600): `determineRoute` + `executeRouting`
are awaited inside a per-item `try`; `proc` abstracts that call pair, and a
thrown error becomes the item's own `failed` result. -/
def processOne (proc : BatchItem → Except Str (RoutingDecision × Str)) (item : BatchItem) : BatchResult :=
  match proc item with
  | .ok (rd, res) =>
    { id := item.id
      routing_decision := some rd
      result := some res
      status := ("success").toList }
  | .error e =>
    { id := item.id
      status := ("failed").toList
      error := some e }

/-- `processBatch(items, options)` (lines 1572-1609): fixed-size consecutive
groups, each group's results appended in order. -/
def processBatch (proc : BatchItem → Except Str (RoutingDecision × Str))
    (items : List BatchItem) (batchSizeOpt : Option Nat) : List BatchResult :=
  ((chunkList (jsBatchSize batchSizeOpt) items).map (fun batch => batch.map (processOne proc))).flatten

/-! ## Supporting lemmas -/

/-! ### Whitespace collapsing -/

/-- The scanner state (`previous character was whitespace`) after processing
`xs` from state `b`. -/
def wsEndState (b : Bool) (xs : Str) : Bool := xs.foldl (fun _ c => isWsChar c) b

lemma wsEndState_nil (b : Bool) : wsEndState b [] = b := rfl

lemma wsEndState_cons (b : Bool) (c : Char) (cs : Str) :
    wsEndState b (c :: cs) = wsEndState (isWsChar c) cs := rfl

lemma collapseAux_append (xs : Str) :
    ∀ (b : Bool) (ys : Str),
      collapseAux b (xs ++ ys) = collapseAux b xs ++ collapseAux (wsEndState b xs) ys := by
  induction xs with
  | nil => intro b ys; rfl
  | cons c cs ih =>
    intro b ys
    by_cases hc : isWsChar c
    · cases b <;> simp [collapseAux, hc, ih, wsEndState_cons]
    · simp [collapseAux, hc, ih, wsEndState_cons]

lemma collapseAux_true_allWs (xs : Str) (h : xs.all isWsChar = true) :
    collapseAux true xs = [] := by
  induction xs with
  | nil => rfl
  | cons c cs ih =>
    simp only [List.all_cons, Bool.and_eq_true] at h
    simp only [collapseAux, h.1, if_true]
    exact ih h.2

lemma collapseAux_allWs (xs : Str) (b : Bool) (h : xs.all isWsChar = true) :
    collapseAux b xs = [] ∨ collapseAux b xs = [' '] := by
  cases xs with
  | nil => exact Or.inl rfl
  | cons c cs =>
    simp only [List.all_cons, Bool.and_eq_true] at h
    cases b with
    | true => exact Or.inl (collapseAux_true_allWs _ (by simp [h.1, h.2]))
    | false =>
      right
      simp [collapseAux, h.1, collapseAux_true_allWs _ h.2]

lemma collapseAux_false_true (s : Str) :
    collapseAux false s = collapseAux true s ∨
      collapseAux false s = ' ' :: collapseAux true s := by
  cases s with
  | nil => exact Or.inl rfl
  | cons c cs =>
    by_cases hc : isWsChar c
    · right
      simp [collapseAux, hc]
    · left
      simp [collapseAux, hc]

lemma collapseAux_cons_nonWs (c : Char) (h : isWsChar c = false) (b : Bool) (rest : Str) :
    collapseAux b (c :: rest) = c :: collapseAux false rest := by
  simp [collapseAux, h]

lemma collapseAux_nonWs_run (d : Str) (hnw : d.all (fun c => !isWsChar c) = true)
    (hne : d ≠ []) : ∀ (b : Bool) (r : Str), collapseAux b (d ++ r) = d ++ collapseAux false r := by
  induction d with
  | nil => exact absurd rfl hne
  | cons c cs ih =>
    intro b r
    simp only [List.all_cons, Bool.and_eq_true, Bool.not_eq_true'] at hnw
    rw [List.cons_append, collapseAux_cons_nonWs c hnw.1]
    cases cs with
    | nil => simp
    | cons c' cs' =>
      rw [ih (by simpa using hnw.2) (by simp) false r]
      rfl

/-! ### Trimming -/

lemma dropWhile_allP (p : Char → Bool) (l : Str) (h : l.all p = true) :
    l.dropWhile p = [] := by
  induction l with
  | nil => rfl
  | cons c cs ih =>
    simp only [List.all_cons, Bool.and_eq_true] at h
    simp only [List.dropWhile_cons, h.1, if_true]
    exact ih h.2

lemma dropWhile_append_allP (p : Char → Bool) (l r : Str) (h : l.all p = true) :
    (l ++ r).dropWhile p = r.dropWhile p := by
  induction l with
  | nil => rfl
  | cons c cs ih =>
    simp only [List.all_cons, Bool.and_eq_true] at h
    simp only [List.cons_append, List.dropWhile_cons, h.1, if_true]
    exact ih h.2

lemma dropWhile_append_not_all (p : Char → Bool) (l r : Str) (h : ¬ l.all p = true) :
    (l ++ r).dropWhile p = l.dropWhile p ++ r := by
  induction l with
  | nil => exact absurd rfl h
  | cons c cs ih =>
    by_cases hc : p c
    · have : ¬ cs.all p = true := fun hh => h (by simp [List.all_cons, hc, hh])
      simp only [List.cons_append, List.dropWhile_cons, hc, if_true]
      exact ih this
    · simp only [List.cons_append, List.dropWhile_cons, hc, if_false, Bool.false_eq_true]

lemma takeWhile_append_allP (p : Char → Bool) (l r : Str) (h : l.all p = true) :
    (l ++ r).takeWhile p = l ++ r.takeWhile p := by
  induction l with
  | nil => rfl
  | cons c cs ih =>
    simp only [List.all_cons, Bool.and_eq_true] at h
    simp only [List.cons_append, List.takeWhile_cons, h.1, if_true]
    rw [ih h.2]

lemma takeWhile_append_not_all (p : Char → Bool) (l r : Str) (h : ¬ l.all p = true) :
    (l ++ r).takeWhile p = l.takeWhile p := by
  induction l with
  | nil => exact absurd rfl h
  | cons c cs ih =>
    by_cases hc : p c
    · have : ¬ cs.all p = true := fun hh => h (by simp [List.all_cons, hc, hh])
      simp only [List.cons_append, List.takeWhile_cons, hc, if_true]
      rw [ih this]
    · simp only [List.cons_append, List.takeWhile_cons, hc, if_false, Bool.false_eq_true]

lemma trimStr_cons_space (x : Str) : trimStr (' ' :: x) = trimStr x := by
  unfold trimStr
  rw [show (' ' :: x).dropWhile isWsChar = x.dropWhile isWsChar from rfl]

lemma trimStr_append_space (x : Str) : trimStr (x ++ [' ']) = trimStr x := by
  unfold trimStr
  by_cases h : x.all isWsChar = true
  · rw [dropWhile_append_allP _ _ _ h, dropWhile_allP _ _ h]
    rfl
  · rw [dropWhile_append_not_all _ _ _ h]
    rw [List.reverse_append]
    rw [show ([' '].reverse ++ (x.dropWhile isWsChar).reverse).dropWhile isWsChar =
      ((x.dropWhile isWsChar).reverse).dropWhile isWsChar from rfl]

lemma takeWhile_allP (p : Char → Bool) (l : Str) (h : l.all p = true) :
    l.takeWhile p = l := by
  induction l with
  | nil => rfl
  | cons c cs ih =>
    simp only [List.all_cons, Bool.and_eq_true] at h
    simp only [List.takeWhile_cons, h.1, if_true]
    rw [ih h.2]

/-! ### Prefix facts -/

lemma strStarts_append_self (l q : Str) : strStarts l (l ++ q) = true := by
  induction l with
  | nil => rfl
  | cons c cs ih =>
    show (c == c && strStarts cs (cs ++ q)) = true
    rw [ih]
    simp

lemma strStarts_length_le (a : Str) :
    ∀ b : Str, strStarts a b = true → a.length ≤ b.length := by
  induction a with
  | nil => intro b _; simp
  | cons c cs ih =>
    intro b h
    cases b with
    | nil => simp [strStarts] at h
    | cons d ds =>
      simp only [strStarts, Bool.and_eq_true] at h
      simpa using Nat.succ_le_succ (ih ds h.2)

lemma strStarts_append_digit (lit : Str) (hnd : lit.all (fun c => !c.isDigit) = true) :
    ∀ (R : Str) (x : Char) (xs : Str), x.isDigit = true →
      strStarts lit (R ++ x :: xs) = strStarts lit R := by
  induction lit with
  | nil => intro R x xs _; rfl
  | cons l ls ih =>
    intro R x xs hx
    simp only [List.all_cons, Bool.and_eq_true, Bool.not_eq_true'] at hnd
    cases R with
    | nil =>
      have hlx : (l == x) = false := by
        rw [beq_eq_false_iff_ne]
        intro he
        rw [he] at hnd
        rw [hnd.1] at hx
        cases hx
      show (l == x && strStarts ls xs) = strStarts (l :: ls) []
      rw [hlx]
      rfl
    | cons r rs =>
      show (l == r && strStarts ls (rs ++ x :: xs)) = (l == r && strStarts ls rs)
      rw [ih (by simpa using hnd.2) rs x xs hx]

lemma strStarts_snoc (z c : Char) (hz : z ≠ c) :
    ∀ (l R : Str), strStarts (l ++ [z]) (R ++ [c]) = strStarts (l ++ [z]) R := by
  intro l
  induction l with
  | nil =>
    intro R
    cases R with
    | nil =>
      show (z == c && strStarts [] []) = strStarts [z] []
      rw [beq_eq_false_iff_ne.2 hz]
      rfl
    | cons r rs => rfl
  | cons a as ih =>
    intro R
    cases R with
    | nil =>
      show (a == c && strStarts (as ++ [z]) []) = strStarts (a :: (as ++ [z])) []
      have hfa : strStarts (as ++ [z]) [] = false := by
        cases as <;> rfl
      rw [hfa, Bool.and_false]
      rfl
    | cons r rs =>
      show (a == r && strStarts (as ++ [z]) (rs ++ [c])) = (a == r && strStarts (as ++ [z]) rs)
      rw [ih rs]

/-! ### Facts about the time-phrase matcher -/

/-- The four unit tails, for case analysis. -/
def timeLits : List Str := [hourSLit, hourLit, minSLit, minLit]

lemma mem_timeLits_cases (lit : Str) (h : lit ∈ timeLits) :
    lit = hourSLit ∨ lit = hourLit ∨ lit = minSLit ∨ lit = minLit := by
  simpa [timeLits] using h

lemma unitTailLen_lit_self (lit : Str) (h : lit ∈ timeLits) (q : Str) :
    unitTailLen (lit ++ q) = some lit.length := by
  rcases mem_timeLits_cases lit h with rfl | rfl | rfl | rfl <;> rfl

lemma unitTailLen_some_le (r : Str) (m : Nat) (h : unitTailLen r = some m) : m ≤ r.length := by
  unfold unitTailLen at h
  split_ifs at h with h1 h2 h3 h4
  · injection h with h'
    subst h'
    simpa [hourSLit] using strStarts_length_le _ _ h1
  · injection h with h'
    subst h'
    simpa [hourLit] using strStarts_length_le _ _ h2
  · injection h with h'
    subst h'
    simpa [minSLit] using strStarts_length_le _ _ h3
  · injection h with h'
    subst h'
    simpa [minLit] using strStarts_length_le _ _ h4

lemma matchTimeLen_nondigit (c : Char) (cs : Str) (h : c.isDigit = false) :
    matchTimeLen (c :: cs) = none := by
  have ht : (c :: cs).takeWhile (·.isDigit) = [] := by
    simp [List.takeWhile_cons, h]
  unfold matchTimeLen
  rw [ht, if_pos rfl]

lemma matchTimeLen_bound (s : Str) (L : Nat) (h : matchTimeLen s = some L) :
    1 ≤ L ∧ L ≤ s.length := by
  unfold matchTimeLen at h
  by_cases hds : s.takeWhile (·.isDigit) = []
  · rw [if_pos hds] at h
    cases h
  · rw [if_neg hds] at h
    cases hu : unitTailLen (s.dropWhile (·.isDigit)) with
    | none => rw [hu] at h; cases h
    | some m =>
      rw [hu] at h
      injection h with h'
      subst h'
      have hlen1 : 1 ≤ (s.takeWhile (·.isDigit)).length := by
        cases he : s.takeWhile (·.isDigit) with
        | nil => exact absurd he hds
        | cons a as => simp [he]
      have hm := unitTailLen_some_le _ _ hu
      have hsplit : (s.takeWhile (·.isDigit)).length + (s.dropWhile (·.isDigit)).length
          = s.length := by
        rw [← List.length_append, List.takeWhile_append_dropWhile]
      omega

lemma matchTimeLen_phrase (d lit Q : Str) (hd : d ≠ []) (hdig : d.all (·.isDigit) = true)
    (hlit : lit ∈ timeLits) :
    matchTimeLen (d ++ (lit ++ Q)) = some (d.length + lit.length) := by
  obtain ⟨rest, hrest⟩ : ∃ rest, lit = ' ' :: rest := by
    rcases mem_timeLits_cases lit hlit with rfl | rfl | rfl | rfl
    exacts [⟨_, rfl⟩, ⟨_, rfl⟩, ⟨_, rfl⟩, ⟨_, rfl⟩]
  have h1 : (lit ++ Q).takeWhile (·.isDigit) = [] := by rw [hrest]; rfl
  have h2 : (lit ++ Q).dropWhile (·.isDigit) = lit ++ Q := by rw [hrest]; rfl
  unfold matchTimeLen
  rw [takeWhile_append_allP _ _ _ hdig, dropWhile_append_allP _ _ _ hdig, h1, h2,
    List.append_nil, if_neg hd, unitTailLen_lit_self lit hlit Q]

lemma unitTailLen_append_digit (R : Str) (x : Char) (xs : Str) (hx : x.isDigit = true) :
    unitTailLen (R ++ x :: xs) = unitTailLen R := by
  unfold unitTailLen
  rw [strStarts_append_digit hourSLit (by decide) R x xs hx,
    strStarts_append_digit hourLit (by decide) R x xs hx,
    strStarts_append_digit minSLit (by decide) R x xs hx,
    strStarts_append_digit minLit (by decide) R x xs hx]

lemma matchTimeLen_append_digit (P : Str) (x : Char) (xs : Str)
    (hP : ¬ P.all (·.isDigit) = true) (hx : x.isDigit = true) :
    matchTimeLen (P ++ x :: xs) = matchTimeLen P := by
  unfold matchTimeLen
  rw [takeWhile_append_not_all _ _ _ hP, dropWhile_append_not_all _ _ _ hP,
    unitTailLen_append_digit _ x xs hx]

lemma unitTailLen_snoc_space (R : Str) : unitTailLen (R ++ [' ']) = unitTailLen R := by
  unfold unitTailLen
  rw [show hourSLit = [' ', 'h', 'o', 'u', 'r', 's', ' ', 'a', 'g'] ++ ['o'] from rfl,
    show hourLit = [' ', 'h', 'o', 'u', 'r', ' ', 'a', 'g'] ++ ['o'] from rfl,
    show minSLit = [' ', 'm', 'i', 'n', 'u', 't', 'e', 's', ' ', 'a', 'g'] ++ ['o'] from rfl,
    show minLit = [' ', 'm', 'i', 'n', 'u', 't', 'e', ' ', 'a', 'g'] ++ ['o'] from rfl,
    strStarts_snoc 'o' ' ' (by decide), strStarts_snoc 'o' ' ' (by decide),
    strStarts_snoc 'o' ' ' (by decide), strStarts_snoc 'o' ' ' (by decide)]

lemma matchTimeLen_snoc_space (u : Str) : matchTimeLen (u ++ [' ']) = matchTimeLen u := by
  unfold matchTimeLen
  by_cases hall : u.all (·.isDigit) = true
  · rw [takeWhile_append_allP _ _ _ hall, dropWhile_append_allP _ _ _ hall,
      takeWhile_allP _ _ hall, dropWhile_allP _ _ hall,
      show ([' '] : Str).takeWhile (·.isDigit) = [] from rfl,
      show ([' '] : Str).dropWhile (·.isDigit) = [' '] from rfl, List.append_nil,
      show unitTailLen [' '] = none from rfl, show unitTailLen [] = none from rfl]
  · rw [takeWhile_append_not_all _ _ _ hall, dropWhile_append_not_all _ _ _ hall,
      unitTailLen_snoc_space]

/-! ### Facts about the time-phrase remover -/

lemma removeTimesAux_fuel_irrel :
    ∀ (f1 f2 : Nat) (s : Str), s.length ≤ f1 → s.length ≤ f2 →
      removeTimesAux f1 s = removeTimesAux f2 s := by
  intro f1
  induction f1 with
  | zero =>
    intro f2 s h1 _
    have : s = [] := List.eq_nil_of_length_eq_zero (Nat.le_zero.1 h1)
    subst this
    cases f2 <;> rfl
  | succ f1 ih =>
    intro f2 s h1 h2
    cases s with
    | nil => cases f2 <;> rfl
    | cons c cs =>
      cases f2 with
      | zero => simp at h2
      | succ f2 =>
        unfold removeTimesAux
        cases hm : matchTimeLen (c :: cs) with
        | none =>
          simp only
          rw [ih f2 cs (by simpa using h1) (by simpa using h2)]
        | some L =>
          simp only
          apply ih
          · have := List.length_drop (L - 1) cs
            simp only [List.length_cons] at h1
            omega
          · have := List.length_drop (L - 1) cs
            simp only [List.length_cons] at h2
            omega

lemma removeTimes_cons_nondigit (c : Char) (cs : Str) (h : c.isDigit = false) :
    removeTimes (c :: cs) = c :: removeTimes cs := by
  unfold removeTimes
  show (match matchTimeLen (c :: cs) with
    | some L => removeTimesAux cs.length (cs.drop (L - 1))
    | none => c :: removeTimesAux cs.length cs) = c :: removeTimesAux cs.length cs
  rw [matchTimeLen_nondigit c cs h]

lemma removeTimesAux_snoc_space :
    ∀ (fuel : Nat) (y : Str), y.length + 1 ≤ fuel →
      removeTimesAux fuel (y ++ [' ']) = removeTimesAux fuel y ++ [' '] := by
  intro fuel
  induction fuel with
  | zero => intro y h; omega
  | succ fuel ih =>
    intro y h
    cases y with
    | nil =>
      show (match matchTimeLen [' '] with
        | some L => removeTimesAux fuel (([] : Str).drop (L - 1))
        | none => ' ' :: removeTimesAux fuel []) = removeTimesAux (fuel + 1) [] ++ [' ']
      rw [matchTimeLen_nondigit ' ' [] (by decide)]
      cases fuel <;> rfl
    | cons c cs =>
      show (match matchTimeLen ((c :: cs) ++ [' ']) with
        | some L => removeTimesAux fuel ((cs ++ [' ']).drop (L - 1))
        | none => c :: removeTimesAux fuel (cs ++ [' '])) =
        (match matchTimeLen (c :: cs) with
          | some L => removeTimesAux fuel (cs.drop (L - 1))
          | none => c :: removeTimesAux fuel cs) ++ [' ']
      rw [matchTimeLen_snoc_space (c :: cs)]
      cases hm : matchTimeLen (c :: cs) with
      | none =>
        simp only [List.length_cons] at h
        simp only
        rw [ih cs (by omega)]
        rfl
      | some L =>
        have hb := matchTimeLen_bound _ _ hm
        simp only [List.length_cons] at hb h
        simp only
        rw [List.drop_append_eq_append_drop, show L - 1 - cs.length = 0 by omega,
          List.drop_zero]
        have hlen : (cs.drop (L - 1)).length + 1 ≤ fuel := by
          have := List.length_drop (L - 1) cs
          omega
        rw [ih (cs.drop (L - 1)) hlen]

lemma removeTimes_snoc_space (y : Str) : removeTimes (y ++ [' ']) = removeTimes y ++ [' '] := by
  unfold removeTimes
  rw [show (y ++ [' ']).length = y.length + 1 by simp,
    removeTimesAux_snoc_space (y.length + 1) y (by omega)]
  congr 1
  exact removeTimesAux_fuel_irrel (y.length + 1) y.length y (by omega) le_rfl

/-! ### Replacing one relative-time phrase by another is invisible to the
remover: the scan consumes both phrases whole and leaves the same residue. -/

lemma matchTimeLen_phrase_cons (x : Char) (e lit Q : Str)
    (hdig : (x :: e).all (·.isDigit) = true) (hlit : lit ∈ timeLits) :
    matchTimeLen (x :: (e ++ (lit ++ Q))) = some ((x :: e).length + lit.length) := by
  have h := matchTimeLen_phrase (x :: e) lit Q (by simp) hdig hlit
  rw [List.cons_append] at h
  exact h

lemma matchTimeLen_phrase_cross (c : Char) (P' d lit Q : Str)
    (hall : (c :: P').all (·.isDigit) = true)
    (hd : d.all (·.isDigit) = true) (hlit : lit ∈ timeLits) :
    matchTimeLen (c :: (P' ++ (d ++ (lit ++ Q)))) =
      some (((c :: P') ++ d).length + lit.length) := by
  have h := matchTimeLen_phrase ((c :: P') ++ d) lit Q (by simp)
    (by simp only [List.all_append, Bool.and_eq_true]; exact ⟨hall, hd⟩) hlit
  rw [List.append_assoc, List.cons_append] at h
  exact h

lemma matchTimeLen_append_run (c : Char) (P' d X : Str)
    (hP : ¬ (c :: P').all (·.isDigit) = true) (hd : d ≠ [])
    (hdig : d.all (·.isDigit) = true) :
    matchTimeLen (c :: (P' ++ (d ++ X))) = matchTimeLen (c :: P') := by
  obtain ⟨x, e, rfl⟩ := List.exists_cons_of_ne_nil hd
  have hx : x.isDigit = true := by
    simp only [List.all_cons, Bool.and_eq_true] at hdig
    exact hdig.1
  have h := matchTimeLen_append_digit (c :: P') x (e ++ X) hP hx
  rw [List.cons_append] at h
  rw [List.cons_append]
  exact h

lemma drop_two_append (e lit Q : Str) :
    (e ++ (lit ++ Q)).drop (e.length + lit.length) = Q := by
  rw [List.drop_append_eq_append_drop, List.drop_eq_nil_of_le (by omega), List.nil_append,
    show e.length + lit.length - e.length = lit.length from by omega, List.drop_left]

lemma drop_three_append (P d lit Q : Str) :
    (P ++ (d ++ (lit ++ Q))).drop (P.length + d.length + lit.length) = Q := by
  rw [List.drop_append_eq_append_drop, List.drop_eq_nil_of_le (by omega), List.nil_append,
    show P.length + d.length + lit.length - P.length = d.length + lit.length from by omega,
    drop_two_append]

lemma removeTimesAux_phrase_congr (d1 d2 lit1 lit2 Q : Str)
    (hd1 : d1 ≠ []) (hd2 : d2 ≠ [])
    (hg1 : d1.all (·.isDigit) = true) (hg2 : d2.all (·.isDigit) = true)
    (hl1 : lit1 ∈ timeLits) (hl2 : lit2 ∈ timeLits) :
    ∀ (fuel1 fuel2 : Nat) (P : Str),
      (P ++ (d1 ++ (lit1 ++ Q))).length ≤ fuel1 →
      (P ++ (d2 ++ (lit2 ++ Q))).length ≤ fuel2 →
      removeTimesAux fuel1 (P ++ (d1 ++ (lit1 ++ Q))) =
        removeTimesAux fuel2 (P ++ (d2 ++ (lit2 ++ Q))) := by
  intro fuel1
  induction fuel1 with
  | zero =>
    intro fuel2 P h1 h2
    exfalso
    obtain ⟨x1, e1, hx1⟩ := List.exists_cons_of_ne_nil hd1
    rw [hx1] at h1
    simp at h1
  | succ fuel1 ih =>
    intro fuel2 P h1 h2
    cases fuel2 with
    | zero =>
      exfalso
      obtain ⟨x2, e2, hx2⟩ := List.exists_cons_of_ne_nil hd2
      rw [hx2] at h2
      simp at h2
    | succ fuel2 =>
      have hQ1 : Q.length ≤ fuel1 := by
        obtain ⟨x1, e1, hx1⟩ := List.exists_cons_of_ne_nil hd1
        rw [hx1] at h1
        simp only [List.length_append, List.length_cons] at h1
        omega
      have hQ2 : Q.length ≤ fuel2 := by
        obtain ⟨x2, e2, hx2⟩ := List.exists_cons_of_ne_nil hd2
        rw [hx2] at h2
        simp only [List.length_append, List.length_cons] at h2
        omega
      cases P with
      | nil =>
        simp only [List.nil_append]
        obtain ⟨x1, e1, rfl⟩ := List.exists_cons_of_ne_nil hd1
        obtain ⟨x2, e2, rfl⟩ := List.exists_cons_of_ne_nil hd2
        rw [List.cons_append, List.cons_append]
        unfold removeTimesAux
        rw [matchTimeLen_phrase_cons x1 e1 lit1 Q hg1 hl1,
          matchTimeLen_phrase_cons x2 e2 lit2 Q hg2 hl2]
        simp only
        rw [show (x1 :: e1).length + lit1.length - 1 = e1.length + lit1.length from by
            simp only [List.length_cons]; omega,
          show (x2 :: e2).length + lit2.length - 1 = e2.length + lit2.length from by
            simp only [List.length_cons]; omega,
          drop_two_append, drop_two_append]
        exact removeTimesAux_fuel_irrel fuel1 fuel2 Q hQ1 hQ2
      | cons c P' =>
        rw [List.cons_append, List.cons_append]
        unfold removeTimesAux
        by_cases hall : (c :: P').all (·.isDigit) = true
        · rw [matchTimeLen_phrase_cross c P' d1 lit1 Q hall hg1 hl1,
            matchTimeLen_phrase_cross c P' d2 lit2 Q hall hg2 hl2]
          simp only
          rw [show ((c :: P') ++ d1).length + lit1.length - 1 =
              P'.length + d1.length + lit1.length from by
              simp only [List.length_append, List.length_cons]; omega,
            show ((c :: P') ++ d2).length + lit2.length - 1 =
              P'.length + d2.length + lit2.length from by
              simp only [List.length_append, List.length_cons]; omega,
            drop_three_append, drop_three_append]
          exact removeTimesAux_fuel_irrel fuel1 fuel2 Q hQ1 hQ2
        · rw [matchTimeLen_append_run c P' d1 (lit1 ++ Q) hall hd1 hg1,
            matchTimeLen_append_run c P' d2 (lit2 ++ Q) hall hd2 hg2]
          simp only [List.length_cons, List.length_append] at h1 h2
          cases ho : matchTimeLen (c :: P') with
          | none =>
            simp only
            have := ih fuel2 P' (by simp only [List.length_append]; omega)
              (by simp only [List.length_append]; omega)
            rw [this]
          | some L =>
            have hb := matchTimeLen_bound _ _ ho
            simp only [List.length_cons] at hb
            simp only
            rw [List.drop_append_eq_append_drop,
              show L - 1 - P'.length = 0 from by omega, List.drop_zero,
              List.drop_append_eq_append_drop,
              show L - 1 - P'.length = 0 from by omega, List.drop_zero]
            have hdl := List.length_drop (L - 1) P'
            exact ih fuel2 (P'.drop (L - 1))
              (by simp only [List.length_append, hdl]; omega)
              (by simp only [List.length_append, hdl]; omega)

lemma removeTimes_phrase_congr (P d1 d2 lit1 lit2 Q : Str)
    (hd1 : d1 ≠ []) (hd2 : d2 ≠ [])
    (hg1 : d1.all (·.isDigit) = true) (hg2 : d2.all (·.isDigit) = true)
    (hl1 : lit1 ∈ timeLits) (hl2 : lit2 ∈ timeLits) :
    removeTimes (P ++ (d1 ++ (lit1 ++ Q))) = removeTimes (P ++ (d2 ++ (lit2 ++ Q))) :=
  removeTimesAux_phrase_congr d1 d2 lit1 lit2 Q hd1 hd2 hg1 hg2 hl1 hl2 _ _ P le_rfl le_rfl

/-! ### Assembling the normalization-invariance facts -/

lemma trim_remove_pad (A B X : Str) (hA : A = [] ∨ A = [' ']) (hB : B = [] ∨ B = [' ']) :
    trimStr (removeTimes (A ++ (X ++ B))) = trimStr (removeTimes X) := by
  rcases hA with rfl | rfl <;> rcases hB with rfl | rfl
  · rw [List.nil_append, List.append_nil]
  · rw [List.nil_append, removeTimes_snoc_space, trimStr_append_space]
  · rw [List.append_nil, List.singleton_append,
      removeTimes_cons_nondigit ' ' X (by decide), trimStr_cons_space]
  · rw [List.singleton_append, removeTimes_cons_nondigit ' ' (X ++ [' ']) (by decide),
      trimStr_cons_space, removeTimes_snoc_space, trimStr_append_space]

lemma trim_pad (A B X : Str) (hA : A = [] ∨ A = [' ']) (hB : B = [] ∨ B = [' ']) :
    trimStr (A ++ (X ++ B)) = trimStr X := by
  rcases hA with rfl | rfl <;> rcases hB with rfl | rfl
  · rw [List.nil_append, List.append_nil]
  · rw [List.nil_append, trimStr_append_space]
  · rw [List.append_nil, List.singleton_append, trimStr_cons_space]
  · rw [List.singleton_append, trimStr_cons_space, trimStr_append_space]

lemma collapse_pad_decomp (pre s post : Str) (hpre : pre.all isWsChar = true)
    (hpost : post.all isWsChar = true) :
    ∃ A B X, (A = [] ∨ A = [' ']) ∧ (B = [] ∨ B = [' ']) ∧
      collapseWs (pre ++ (s ++ post)) = A ++ (X ++ B) ∧
      (collapseWs s = X ∨ collapseWs s = ' ' :: X) := by
  refine ⟨collapseAux false pre, collapseAux (wsEndState (wsEndState false pre) s) post,
    collapseAux (wsEndState false pre) s,
    collapseAux_allWs pre false hpre, collapseAux_allWs post _ hpost, ?_, ?_⟩
  · unfold collapseWs
    rw [collapseAux_append pre false (s ++ post), collapseAux_append s _ post]
  · cases hst : wsEndState false pre with
    | false => exact Or.inl rfl
    | true => exact collapseAux_false_true s

lemma trim_collapse_pad (pre s post : Str) (hpre : pre.all isWsChar = true)
    (hpost : post.all isWsChar = true) :
    trimStr (collapseWs (pre ++ (s ++ post))) = trimStr (collapseWs s) := by
  obtain ⟨A, B, X, hA, hB, heq, hrel⟩ := collapse_pad_decomp pre s post hpre hpost
  rw [heq, trim_pad A B X hA hB]
  rcases hrel with h | h
  · rw [h]
  · rw [h, trimStr_cons_space]

lemma trim_remove_collapse_pad (pre s post : Str) (hpre : pre.all isWsChar = true)
    (hpost : post.all isWsChar = true) :
    trimStr (removeTimes (collapseWs (pre ++ (s ++ post)))) =
      trimStr (removeTimes (collapseWs s)) := by
  obtain ⟨A, B, X, hA, hB, heq, hrel⟩ := collapse_pad_decomp pre s post hpre hpost
  rw [heq, trim_remove_pad A B X hA hB]
  rcases hrel with h | h
  · rw [h]
  · rw [h, removeTimes_cons_nondigit ' ' X (by decide), trimStr_cons_space]

lemma normalizeText_pad (preT t postT : Str) (hpre : preT.all isWsChar = true)
    (hpost : postT.all isWsChar = true) :
    normalizeText (preT ++ (t ++ postT)) = normalizeText t := by
  unfold normalizeText
  by_cases hall : preT ++ (t ++ postT) = []
  · have hts : t = [] := by
      simp only [List.append_eq_nil] at hall
      exact hall.2.1
    rw [if_pos hall, if_pos hts]
  · rw [if_neg hall]
    by_cases ht : t = []
    · rw [if_pos ht, ht]
      rw [trim_collapse_pad preT [] postT hpre hpost]
      rfl
    · rw [if_neg ht, trim_collapse_pad preT t postT hpre hpost]

lemma normalizeContentForHash_pad (pre s post : Str) (hpre : pre.all isWsChar = true)
    (hpost : post.all isWsChar = true) :
    normalizeContentForHash (pre ++ (s ++ post)) = normalizeContentForHash s := by
  unfold normalizeContentForHash
  rw [trim_remove_collapse_pad pre s post hpre hpost]

lemma digit_not_ws (c : Char) (h : c.isDigit = true) : isWsChar c = false := by
  by_contra hw
  rw [Bool.not_eq_false] at hw
  unfold isWsChar at hw
  unfold Char.isDigit at h
  simp only [Bool.or_eq_true, beq_iff_eq] at hw
  rcases hw with ((((rfl | rfl) | rfl) | rfl) | rfl) | rfl <;> revert h <;> decide

lemma digits_not_ws (d : Str) (h : d.all (·.isDigit) = true) :
    d.all (fun c => !isWsChar c) = true := by
  rw [List.all_eq_true] at h ⊢
  intro c hc
  have := digit_not_ws c (h c hc)
  simp [this]

lemma collapse_phrase_decomp (p q d lit : Str) (hd : d ≠ [])
    (hdig : d.all (·.isDigit) = true) (hlit : lit ∈ timeLits) :
    collapseWs (p ++ (d ++ (lit ++ q))) =
      collapseAux false p ++ (d ++ (lit ++ collapseAux false q)) := by
  unfold collapseWs
  rw [collapseAux_append p false (d ++ (lit ++ q))]
  congr 1
  rw [collapseAux_nonWs_run d (digits_not_ws d hdig) hd _ (lit ++ q)]
  congr 1
  rcases mem_timeLits_cases lit hlit with rfl | rfl | rfl | rfl <;> rfl

lemma normalizeContentForHash_phrase (p q d1 d2 lit1 lit2 : Str)
    (hd1 : d1 ≠ []) (hd2 : d2 ≠ [])
    (hg1 : d1.all (·.isDigit) = true) (hg2 : d2.all (·.isDigit) = true)
    (hl1 : lit1 ∈ timeLits) (hl2 : lit2 ∈ timeLits) :
    normalizeContentForHash (p ++ (d1 ++ (lit1 ++ q))) =
      normalizeContentForHash (p ++ (d2 ++ (lit2 ++ q))) := by
  unfold normalizeContentForHash
  rw [collapse_phrase_decomp p q d1 lit1 hd1 hg1 hl1,
    collapse_phrase_decomp p q d2 lit2 hd2 hg2 hl2,
    removeTimes_phrase_congr (collapseAux false p) d1 d2 lit1 lit2 (collapseAux false q)
      hd1 hd2 hg1 hg2 hl1 hl2]

/-- Unfolding of the primary fingerprint into its three delimited parts. -/
lemma primary_fingerprint_eq (c : ContentItem) :
    (generateContentFingerprint c).primary_fingerprint =
      sha256hex (optToStr (extractPatreonPostId c.url) ++
        ('|' :: normalizeText c.title) ++ ('|' :: createContentHash c.content)) := rfl

lemma createContentHash_of_ne (s : Str) (h : s ≠ []) :
    createContentHash s = sha256hex (normalizeContentForHash s) := by
  unfold createContentHash
  rw [if_neg h]

lemma storeGet_storeSet_self (s : Store) (k : Str) (v : ProcessedInfo) :
    storeGet (storeSet s k v) k = some v := by
  induction s with
  | nil => simp [storeSet, storeGet]
  | cons hd tl ih =>
    obtain ⟨k', v'⟩ := hd
    by_cases h : k' = k
    · simp [storeSet, storeGet, h]
    · simp [storeSet, storeGet, h, ih]

lemma storeGet_storeSet_ne (s : Store) (k key : Str) (v : ProcessedInfo) (h : k ≠ key) :
    storeGet (storeSet s key v) k = storeGet s k := by
  have hne : ¬ key = k := fun hh => h hh.symm
  induction s with
  | nil => simp [storeSet, storeGet, hne]
  | cons hd tl ih =>
    obtain ⟨k', v'⟩ := hd
    by_cases h' : k' = key
    · subst h'
      simp [storeSet, storeGet, hne, h]
    · by_cases h'' : k' = k
      · subst h''
        simp [storeSet, storeGet, h', h]
      · simp [storeSet, storeGet, h', h'', ih]

lemma storeSet_storeSet_same (s : Store) (k : Str) (v1 v2 : ProcessedInfo) :
    storeSet (storeSet s k v1) k v2 = storeSet s k v2 := by
  induction s with
  | nil => simp [storeSet]
  | cons hd tl ih =>
    obtain ⟨k', v'⟩ := hd
    by_cases h : k' = k
    · simp [storeSet, h]
    · simp [storeSet, h, ih]

/-- The post-state predicate of one `forceReprocess` loop iteration at `fp`. -/
def ForcedAt (reason fp : Str) (st : Store) : Prop :=
  ∃ r, storeGet st fp = some r ∧ r.force_reprocess_flag = true ∧
    r.processing_status = some (("needs_reprocessing").toList) ∧
    r.reprocess_reason = some reason

lemma forceStep_establishes {reason fp : Str} {st : Store} {r : ProcessedInfo}
    (h : storeGet st fp = some r) : ForcedAt reason fp (forceStep reason st fp) := by
  refine ⟨{ r with
      force_reprocess_flag := true
      processing_status := some (("needs_reprocessing").toList)
      reprocess_reason := some reason }, ?_, rfl, rfl, rfl⟩
  unfold forceStep
  rw [h]
  exact storeGet_storeSet_self ..

lemma forceStep_get_ne {reason fp hash : Str} {st : Store} (h : fp ≠ hash) :
    storeGet (forceStep reason st hash) fp = storeGet st fp := by
  unfold forceStep
  cases hg : storeGet st hash with
  | none => rfl
  | some info => exact storeGet_storeSet_ne _ _ _ _ h

lemma forceStep_preserves {reason fp hash : Str} {st : Store}
    (h : ForcedAt reason fp st) : ForcedAt reason fp (forceStep reason st hash) := by
  obtain ⟨r, hget, h1, h2, h3⟩ := h
  by_cases he : fp = hash
  · subst he
    exact forceStep_establishes hget
  · exact ⟨r, by rw [forceStep_get_ne he]; exact hget, h1, h2, h3⟩

lemma foldl_forceStep_preserves {reason fp : Str} :
    ∀ (hashes : List Str) (st : Store), ForcedAt reason fp st →
      ForcedAt reason fp (hashes.foldl (forceStep reason) st)
  | [], _, h => h
  | _ :: t, st, h => foldl_forceStep_preserves t _ (forceStep_preserves h)

lemma foldl_forceStep_forces {reason fp : Str} :
    ∀ (hashes : List Str) (st : Store) (r : ProcessedInfo), storeGet st fp = some r →
      fp ∈ hashes → ForcedAt reason fp (hashes.foldl (forceStep reason) st) := by
  intro hashes
  induction hashes with
  | nil => intro st r _ hmem; cases hmem
  | cons hd t ih =>
    intro st r hget hmem
    by_cases he : fp = hd
    · subst he
      exact foldl_forceStep_preserves t _ (forceStep_establishes hget)
    · have hmem' : fp ∈ t := by
        rcases List.mem_cons.1 hmem with h | h
        · exact absurd h he
        · exact h
      exact ih _ r (by rw [forceStep_get_ne he]; exact hget) hmem'

/-! Chunking lemmas for `processBatch`. -/

/-- The chunk lengths of `chunkAux`, as a function of the list length alone. -/
def chunkLens (bs : Nat) : Nat → Nat → List Nat
  | _, 0 => []
  | 0, _ + 1 => []
  | fuel + 1, n + 1 => (1 + min (bs - 1) n) :: chunkLens bs fuel (n - (bs - 1))

lemma chunkAux_flatten (bs : Nat) :
    ∀ (fuel : Nat) (l : List α), l.length ≤ fuel → (chunkAux bs fuel l).flatten = l := by
  intro fuel
  induction fuel with
  | zero =>
    intro l hl
    cases l with
    | nil => rfl
    | cons x xs => simp at hl
  | succ fuel ih =>
    intro l hl
    cases l with
    | nil => rfl
    | cons x xs =>
      simp only [chunkAux, List.flatten_cons]
      rw [ih (xs.drop (bs - 1)) ?_]
      · simp [List.cons_append, List.take_append_drop]
      · have := List.length_drop (bs - 1) xs
        simp only [List.length_cons] at hl
        omega

lemma chunkAux_mem_length (bs : Nat) (hbs : 1 ≤ bs) :
    ∀ (fuel : Nat) (l : List α) (c : List α), c ∈ chunkAux bs fuel l → c.length ≤ bs := by
  intro fuel
  induction fuel with
  | zero =>
    intro l c hc
    cases l <;> simp [chunkAux] at hc
  | succ fuel ih =>
    intro l c hc
    cases l with
    | nil => simp [chunkAux] at hc
    | cons x xs =>
      simp only [chunkAux, List.mem_cons] at hc
      rcases hc with h | h
      · subst h
        have := List.length_take (bs - 1) xs
        simp only [List.length_cons, this]
        omega
      · exact ih _ _ h

lemma chunkAux_map_length (bs : Nat) :
    ∀ (fuel : Nat) (l : List α), (chunkAux bs fuel l).map List.length = chunkLens bs fuel l.length := by
  intro fuel
  induction fuel with
  | zero =>
    intro l
    cases l <;> rfl
  | succ fuel ih =>
    intro l
    cases l with
    | nil => rfl
    | cons x xs =>
      simp only [chunkAux, List.map_cons, List.length_cons, chunkLens]
      rw [ih]
      simp only [List.length_take, List.length_drop]
      congr 1
      omega

lemma flatten_map_map (f : α → β) :
    ∀ L : List (List α), (L.map (List.map f)).flatten = L.flatten.map f := by
  intro L
  induction L with
  | nil => rfl
  | cons hd tl ih => simp only [List.map_cons, List.flatten_cons, List.map_append, ih]

lemma famStep_nonneg (content factorName : Str) (family : List Str) (acc : ℚ × List Str)
    (h : 0 ≤ acc.1) : 0 ≤ (famStep content factorName family acc).1 := by
  unfold famStep
  split
  · simp only [Rat.mkRat_eq_div]
    have : (0 : ℚ) ≤ (countWordMatches family content : ℚ) := by positivity
    push_cast
    nlinarith
  · exact h

/-! ## Claims -/

/-- Content item with an empty body, for the C1 counterexample. -/
def c1ItemEmpty : ContentItem :=
  { url := ("https://x.com/posts/123").toList, title := ("t").toList,
    content := [], tags := [] }

/-- The same item with the body `" "`: it differs from `c1ItemEmpty` only in
surrounding whitespace, and both bodies normalize to the empty string. -/
def c1ItemSpace : ContentItem :=
  { url := ("https://x.com/posts/123").toList, title := ("t").toList,
    content := [' '], tags := [] }

/-- C1 counterexample: two items with identical post id, video id, normalized
title and normalized body, differing only in surrounding whitespace of the
body, still get different primary fingerprints — the falsy guard of
`createContentHash` returns `''` for the empty body but the digest of the
empty normalized string for `" "`. -/
theorem C1_counterexample :
    extractPatreonPostId c1ItemEmpty.url = extractPatreonPostId c1ItemSpace.url ∧
    extractVideoId c1ItemEmpty.content = extractVideoId c1ItemSpace.content ∧
    normalizeText c1ItemEmpty.title = normalizeText c1ItemSpace.title ∧
    normalizeContentForHash c1ItemEmpty.content = normalizeContentForHash c1ItemSpace.content ∧
    c1ItemSpace.content = [' '] ++ (c1ItemEmpty.content ++ []) ∧
    (generateContentFingerprint c1ItemEmpty).primary_fingerprint ≠
      (generateContentFingerprint c1ItemSpace).primary_fingerprint := by
  decide

/-- C1 (amended): restricted to items whose raw bodies are nonempty, the
fingerprint invariance holds.  (a) Items with identical (post id, video id,
normalized title, normalized body) get the same primary fingerprint;
(b) the fingerprint is unchanged by surrounding whitespace around the title
and around a nonempty body; (c) the fingerprint is unchanged when the two
items differ only in an embedded relative-time phrase (any digit run and any
of the four `hours?/minutes? ago` unit spellings, anywhere in the body). -/
theorem C1_fingerprint_invariance_amended :
    (∀ c1 c2 : ContentItem, c1.content ≠ [] → c2.content ≠ [] →
      extractPatreonPostId c1.url = extractPatreonPostId c2.url →
      extractVideoId c1.content = extractVideoId c2.content →
      normalizeText c1.title = normalizeText c2.title →
      normalizeContentForHash c1.content = normalizeContentForHash c2.content →
      (generateContentFingerprint c1).primary_fingerprint =
        (generateContentFingerprint c2).primary_fingerprint) ∧
    (∀ (c : ContentItem) (pre post preT postT : Str),
      pre.all isWsChar = true → post.all isWsChar = true →
      preT.all isWsChar = true → postT.all isWsChar = true →
      c.content ≠ [] →
      (generateContentFingerprint
          { c with
            title := preT ++ (c.title ++ postT)
            content := pre ++ (c.content ++ post) }).primary_fingerprint =
        (generateContentFingerprint c).primary_fingerprint) ∧
    (∀ (c : ContentItem) (p q d1 d2 lit1 lit2 : Str),
      d1 ≠ [] → d2 ≠ [] →
      d1.all (·.isDigit) = true → d2.all (·.isDigit) = true →
      lit1 ∈ timeLits → lit2 ∈ timeLits →
      (generateContentFingerprint
          { c with content := p ++ (d1 ++ (lit1 ++ q)) }).primary_fingerprint =
        (generateContentFingerprint
          { c with content := p ++ (d2 ++ (lit2 ++ q)) }).primary_fingerprint) := by
  refine ⟨?_, ?_, ?_⟩
  · intro c1 c2 hne1 hne2 hpost _hvid htitle hbody
    rw [primary_fingerprint_eq, primary_fingerprint_eq, hpost, htitle,
      createContentHash_of_ne _ hne1, createContentHash_of_ne _ hne2, hbody]
  · intro c pre post preT postT hpre hpost hpreT hpostT hcne
    have hne' : pre ++ (c.content ++ post) ≠ [] := by
      simp only [ne_eq, List.append_eq_nil]
      intro h
      exact hcne h.2.1
    rw [primary_fingerprint_eq, primary_fingerprint_eq]
    show sha256hex (optToStr (extractPatreonPostId c.url) ++
        ('|' :: normalizeText (preT ++ (c.title ++ postT))) ++
        ('|' :: createContentHash (pre ++ (c.content ++ post)))) = _
    rw [normalizeText_pad preT c.title postT hpreT hpostT,
      createContentHash_of_ne _ hne', createContentHash_of_ne _ hcne,
      normalizeContentForHash_pad pre c.content post hpre hpost]
  · intro c p q d1 d2 lit1 lit2 hd1 hd2 hg1 hg2 hl1 hl2
    have hne1 : p ++ (d1 ++ (lit1 ++ q)) ≠ [] := by
      simp only [ne_eq, List.append_eq_nil]
      intro h
      exact hd1 h.2.1
    have hne2 : p ++ (d2 ++ (lit2 ++ q)) ≠ [] := by
      simp only [ne_eq, List.append_eq_nil]
      intro h
      exact hd2 h.2.1
    rw [primary_fingerprint_eq, primary_fingerprint_eq]
    show sha256hex (optToStr (extractPatreonPostId c.url) ++
        ('|' :: normalizeText c.title) ++
        ('|' :: createContentHash (p ++ (d1 ++ (lit1 ++ q))))) =
      sha256hex (optToStr (extractPatreonPostId c.url) ++
        ('|' :: normalizeText c.title) ++
        ('|' :: createContentHash (p ++ (d2 ++ (lit2 ++ q)))))
    rw [createContentHash_of_ne _ hne1, createContentHash_of_ne _ hne2,
      normalizeContentForHash_phrase p q d1 d2 lit1 lit2 hd1 hd2 hg1 hg2 hl1 hl2]

/-- Witness for the amended C1 at a concrete input: swapping the phrase
`"3 hours ago"` for `"45 minutes ago"` inside the body leaves the primary
fingerprint unchanged. -/
theorem C1_witness :
    (generateContentFingerprint
        { url := ("https://x.com/posts/123").toList, title := ("t").toList,
          content := ("Live ").toList ++ (("3").toList ++ (hourSLit ++ (": link").toList)),
          tags := [] } : Fingerprint).primary_fingerprint =
      (generateContentFingerprint
        { url := ("https://x.com/posts/123").toList, title := ("t").toList,
          content := ("Live ").toList ++ (("45").toList ++ (minSLit ++ (": link").toList)),
          tags := [] }).primary_fingerprint :=
  C1_fingerprint_invariance_amended.2.2
    { url := ("https://x.com/posts/123").toList, title := ("t").toList,
      content := [], tags := [] }
    (("Live ").toList) ((": link").toList) (("3").toList) (("45").toList) hourSLit minSLit
    (by decide) (by decide) (by decide) (by decide) (by decide) (by decide)

/-- C2: for every processing record with `force_reprocess_flag` set and
status `'failed'` with `error_count` 0, `shouldReprocess` returns
`should_reprocess = true` with reason `'force_reprocess_requested'` — the
force rule pre-empts the retry rule in the ordered decision list. -/
theorem C2_force_preempts_retry (info : ProcessedInfo)
    (hforce : info.force_reprocess_flag = true)
    (_hstatus : info.status = some (("failed").toList))
    (_herr : info.error_count = some 0) :
    shouldReprocess info = ⟨true, ("force_reprocess_requested").toList⟩ := by
  unfold shouldReprocess
  rw [hforce]
  rfl

/-- Witness for C2 at a concrete record. -/
theorem C2_witness :
    shouldReprocess
        { status := some (("failed").toList), error_count := some 0,
          force_reprocess_flag := true } =
      ⟨true, ("force_reprocess_requested").toList⟩ :=
  C2_force_preempts_retry _ rfl rfl rfl

/-- A concrete record exercising the version-comparison bug: quality below
0.7 and a recorded processing version `"10.0.0"` that is semantically newer
than the current version `"2.0.0"`. -/
def versionBugRecord : ProcessedInfo :=
  { status := some (("completed").toList)
    quality_score := some (mkRat 1 2)
    processing_version := some (("10.0.0").toList) }

/-- C3: the claim says the quality rule fires exactly when
`quality_score < 0.7` and the recorded `processing_version` is semantically
older than `'2.0.0'`, for all version strings including `"10.0.0"`.  The code
compares version strings with a plain JS `<` (lexicographic by character
code), so for the record with version `"10.0.0"` — semantically NEWER than
`"2.0.0"` — it still answers `quality_improvement_available`.  This theorem
evaluates the code at that failing input and shows the semantic order is the
opposite of the lexical one there. -/
theorem C3_version_compare_is_lexical :
    shouldReprocess versionBugRecord = ⟨true, ("quality_improvement_available").toList⟩ ∧
    hasNewerProcessingVersion (some (("10.0.0").toList)) = true ∧
    semverLt getCurrentProcessingVersion (("10.0.0").toList) = true ∧
    semverLt (("10.0.0").toList) getCurrentProcessingVersion = false := by
  refine ⟨?_, by decide, by decide, by decide⟩
  decide

/-- C6: for every input string, the complexity score is in `[0, 1]`. -/
theorem C6_complexity_score_in_unit_interval (content : Str) :
    0 ≤ (analyzeComplexity content).complexity_score ∧
      (analyzeComplexity content).complexity_score ≤ 1 := by
  have h0 : (0 : ℚ) ≤ (lengthAccum content).1 := by
    unfold lengthAccum
    split
    · simp only [Rat.mkRat_eq_div]
      push_cast
      norm_num
    · simp
  have h3 : (0 : ℚ) ≤ (familiesAccum content).1 :=
    famStep_nonneg _ _ _ _ (famStep_nonneg _ _ _ _ (famStep_nonneg _ _ _ _ h0))
  have h4 : (0 : ℚ) ≤ (complexityAccum content).1 := by
    unfold complexityAccum
    split
    · simp only [Rat.mkRat_eq_div]
      push_cast
      nlinarith
    · exact h3
  exact ⟨le_min h4 zero_le_one, min_le_right _ _⟩

/-- C7: content whose `content_type` is `'image'` is always routed to the
local `vision_analysis` model, whatever the text, complexity, or options —
the image rule pre-empts all later rules, including the trading rule. -/
theorem C7_image_rule_preempts (content : Str) (options : RouterOptions) :
    applyRoutingRules content (analyzeComplexity content)
        (classifyContent content (("image").toList)) options =
      .mk (("local").toList) (("vision_analysis").toList)
        (("Image content routed to local vision model").toList) false none := by
  have hct : (classifyContent content (("image").toList)).content_type = ("image").toList := rfl
  unfold applyRoutingRules
  rw [hct, if_pos rfl]

/-- C8: marking the same fingerprint completed twice with the same result
and quality score leaves the store exactly as one call does, and the final
record is completed with `error_count` 0, the flag cleared, and the given
result and quality score. -/
theorem C8_markAsCompleted_idempotent (store : Store) (fp : Fingerprint) (result : Str)
    (q : ℚ) (now : Str) :
    markAsCompleted (markAsCompleted store fp result q now) fp result q now =
      markAsCompleted store fp result q now ∧
    storeGet (markAsCompleted store fp result q now) fp.primary_fingerprint =
      some (markAsCompletedRecord fp result q now) ∧
    (markAsCompletedRecord fp result q now).processing_status = some (("completed").toList) ∧
    (markAsCompletedRecord fp result q now).error_count = some 0 ∧
    (markAsCompletedRecord fp result q now).force_reprocess_flag = false ∧
    (markAsCompletedRecord fp result q now).result = some result ∧
    (markAsCompletedRecord fp result q now).quality_score = some q :=
  ⟨storeSet_storeSet_same .., storeGet_storeSet_self .., rfl, rfl, rfl, rfl, rfl⟩

/-- C9: the store's own write operations `markAsProcessing` and
`markAsCompleted` record the lifecycle state in `processing_status` and leave
the `status` field absent; consequently `shouldReprocess` can never answer
`'retry_failed_processing'` on a record they produced (it tests
`record.status === 'failed'`), and a cache hit in `checkIfProcessed` reports
an absent `processing_status` (it reads `record.status`). -/
theorem C9_status_field_mismatch :
    (∀ fp content now,
      (markAsProcessingRecord fp content now).processing_status = some (("processing").toList) ∧
      (markAsProcessingRecord fp content now).status = none) ∧
    (∀ fp result q now,
      (markAsCompletedRecord fp result q now).processing_status = some (("completed").toList) ∧
      (markAsCompletedRecord fp result q now).status = none) ∧
    (∀ info : ProcessedInfo, info.status = none →
      (shouldReprocess info).reason ≠ ("retry_failed_processing").toList) ∧
    (∀ (store : Store) (content : ContentItem) (info : ProcessedInfo),
      storeGet store (generateContentFingerprint content).primary_fingerprint = some info →
      info.status = none →
      (checkIfProcessed store content).1.is_duplicate = true ∧
      (checkIfProcessed store content).1.processing_status = none) := by
  refine ⟨fun _ _ _ => ⟨rfl, rfl⟩, fun _ _ _ _ => ⟨rfl, rfl⟩, ?_, ?_⟩
  · intro info h
    unfold shouldReprocess
    rw [h]
    have hb : ((none : Option Str) == some (("failed").toList)) = false := rfl
    rw [hb]
    simp only [Bool.false_and, Bool.false_eq_true, if_false]
    split
    · decide
    · split
      · decide
      · split
        · decide
        · decide
  · intro store content info hget hstatus
    unfold checkIfProcessed
    rw [hget]
    exact ⟨rfl, hstatus⟩

/-- Witness for C9 at concrete inputs. -/
theorem C9_witness :
    (shouldReprocess { status := none }).reason ≠ ("retry_failed_processing").toList ∧
    (markAsCompletedRecord
        (generateContentFingerprint ⟨[], [], [], []⟩) [] (mkRat 4 5) []).status = none :=
  ⟨C9_status_field_mismatch.2.2.1 _ rfl,
    (C9_status_field_mismatch.2.1 (generateContentFingerprint ⟨[], [], [], []⟩) [] (mkRat 4 5) []).2⟩

/-- C10: no operation of `IntelligentRouter` ever writes `costTracking`, so
`getDailyCost` is 0 in every reachable state; hence whenever the configured
`high_cost` threshold is positive, the cost override of `optimizeRouting`
(cloud → local `complex_reasoning`) never fires, for every decision and
every options value, including `cost_mode: 'optimize'`. -/
theorem C10_cost_override_never_fires (st : RouterState) (h : Reachable st) :
    st.costTracking = [] ∧
    (∀ today, getDailyCost st today = 0) ∧
    (∀ highCost : ℚ, 0 < highCost → ∀ today options d,
      costGuard st highCost today options d = d ∧
      optimizeRouting st highCost today d options = latencyGuard st options d) := by
  have hct : st.costTracking = [] := by
    induction h with
    | init => rfl
    | update st rt m l c hr ih => simpa [updatePerformanceHistoryState] using ih
  have hdc : ∀ today, getDailyCost st today = 0 := by
    intro today
    unfold getDailyCost
    rw [hct]
    rfl
  refine ⟨hct, hdc, ?_⟩
  intro highCost hpos today options d
  have hcg : costGuard st highCost today options d = d := by
    unfold costGuard
    have hng : ¬ highCost < 0 := not_lt.2 (le_of_lt hpos)
    rw [hdc today, if_neg hng, ite_self]
  exact ⟨hcg, by unfold optimizeRouting; rw [hcg]⟩

/-- Witness for C10 in the constructor state. -/
theorem C10_witness :
    getDailyCost initRouterState (("2024-01-01").toList) = 0 ∧
    optimizeRouting initRouterState 10 (("2024-01-01").toList) getFallbackRoute
        { cost_mode := some (("optimize").toList) } =
      latencyGuard initRouterState { cost_mode := some (("optimize").toList) } getFallbackRoute :=
  ⟨(C10_cost_override_never_fires initRouterState Reachable.init).2.1 _,
    ((C10_cost_override_never_fires initRouterState Reachable.init).2.2 10 (by simp) _ _ _).2⟩

/-- C5: with the default batch size of 10, `processBatch` processes the
input in consecutive groups of at most 10 (a 25-item input yields groups of
10, 10 and 5), the results list is exactly the per-item results in input
order (so its length equals the input length), and a failing item becomes
its own `status:'failed'` entry carrying the error message instead of
aborting the batch. -/
theorem C5_batch_grouping_and_error_isolation
    (items : List BatchItem) (proc : BatchItem → Except Str (RoutingDecision × Str)) :
    processBatch proc items none = items.map (processOne proc) ∧
    (processBatch proc items none).length = items.length ∧
    (∀ batch ∈ chunkList 10 items, batch.length ≤ 10) ∧
    (chunkList 10 items).flatten = items ∧
    (items.length = 25 → (chunkList 10 items).map List.length = [10, 10, 5]) ∧
    (∀ item e, proc item = .error e →
      processOne proc item = { id := item.id, status := ("failed").toList, error := some e }) := by
  have hflat : (chunkList 10 items).flatten = items :=
    chunkAux_flatten 10 items.length items le_rfl
  have heq : processBatch proc items none = items.map (processOne proc) := by
    unfold processBatch
    show ((chunkList 10 items).map (fun batch => batch.map (processOne proc))).flatten = _
    rw [flatten_map_map (processOne proc) (chunkList 10 items), hflat]
  refine ⟨heq, by rw [heq, List.length_map], ?_, hflat, ?_, ?_⟩
  · intro batch hb
    exact chunkAux_mem_length 10 (by norm_num) items.length items batch hb
  · intro h25
    unfold chunkList
    rw [chunkAux_map_length, h25]
    decide
  · intro item e he
    unfold processOne
    rw [he]

/-- Witness items for C5: 25 identical items and an always-throwing
processor. -/
def batchWitnessItems : List BatchItem :=
  List.replicate 25 { id := ("i").toList, content := [], content_type := ("text").toList }

def batchWitnessProc : BatchItem → Except Str (RoutingDecision × Str) :=
  fun _ => .error (("model unavailable").toList)

/-- Witness for C5 at the 25-item input. -/
theorem C5_witness :
    (chunkList 10 batchWitnessItems).map List.length = [10, 10, 5] ∧
    processOne batchWitnessProc
        { id := ("i").toList, content := [], content_type := ("text").toList } =
      { id := ("i").toList, status := ("failed").toList,
        error := some (("model unavailable").toList) } :=
  ⟨(C5_batch_grouping_and_error_isolation batchWitnessItems batchWitnessProc).2.2.2.2.1 rfl,
    (C5_batch_grouping_and_error_isolation batchWitnessItems batchWitnessProc).2.2.2.2.2 _ _ rfl⟩

/-- C4: on a store that contains a completed record under the fingerprint
derived from `"https://x.com/posts/123"`, and with the external identifier
lookup resolving that URL to that fingerprint (the source's
`findContentByIdentifier` is an empty database stub, so the lookup is the
spec-modelled parameter of `forceReprocessWith`), calling
`forceReprocess("https://x.com/posts/123", "manual_request")` leaves the
record with status `needs_reprocessing`, the force flag set, and the given
reason recorded. -/
theorem C4_forceReprocess_marks_record (lookup : Str → List Str) (store : Store)
    (content : ContentItem) (reason : Str) (r : ProcessedInfo)
    (_hurl : content.url = ("https://x.com/posts/123").toList)
    (hrec : storeGet store (generateContentFingerprint content).primary_fingerprint = some r)
    (_hcompleted : r.processing_status = some (("completed").toList))
    (hresolve : (generateContentFingerprint content).primary_fingerprint ∈ lookup content.url) :
    ∃ r', storeGet (forceReprocessWith lookup store content.url reason)
        (generateContentFingerprint content).primary_fingerprint = some r' ∧
      r'.force_reprocess_flag = true ∧
      r'.processing_status = some (("needs_reprocessing").toList) ∧
      r'.reprocess_reason = some reason :=
  foldl_forceStep_forces (lookup content.url) store r hrec hresolve

/-- Concrete scenario data for C4. -/
def c4Content : ContentItem :=
  { url := ("https://x.com/posts/123").toList, title := ("t").toList,
    content := ("body").toList, tags := [] }

def c4Fingerprint : Str := (generateContentFingerprint c4Content).primary_fingerprint

def c4Store : Store :=
  [(c4Fingerprint,
    markAsCompletedRecord (generateContentFingerprint c4Content) (("res").toList)
      (mkRat 4 5) (("2024-01-01").toList))]

def c4Lookup : Str → List Str := fun _ => [c4Fingerprint]

/-- Witness for C4 at the concrete store. -/
theorem C4_witness :
    ∃ r', storeGet
        (forceReprocessWith c4Lookup c4Store c4Content.url (("manual_request").toList))
        (generateContentFingerprint c4Content).primary_fingerprint = some r' ∧
      r'.force_reprocess_flag = true ∧
      r'.processing_status = some (("needs_reprocessing").toList) ∧
      r'.reprocess_reason = some (("manual_request").toList) :=
  C4_forceReprocess_marks_record c4Lookup c4Store c4Content (("manual_request").toList) _
    rfl (by unfold c4Store storeGet c4Fingerprint; rw [if_pos rfl]) rfl
    (by unfold c4Lookup c4Fingerprint; exact List.mem_singleton.2 rfl)

end LLMRouter
